import Mathlib

set_option maxRecDepth 8192

/-! Shallow embedding of the `rustls-pki-types` crate (`src/lib.rs`):
the DER byte container `Der` with its owned/borrowed duality, the
semantic wrapper types (certificate, CRL, the three private-key
encodings, the `PrivateKeyDer` sum), `TrustAnchor`, `UnixTime`, and the
`InvalidSignature` error type, together with the `Debug` formatting of
these types. Bytes (`u8`) are modelled as `Fin 256`, byte slices and
vectors as `List Byte`, and Rust's derived `PartialEq` instances as
explicit boolean equality functions following the semantics of
`#[derive(PartialEq)]` (variant tags compared first, then payloads). -/

/-- A `u8` byte. -/
abbrev Byte := Fin 256

/-- `enum DerInner<'a> { Owned(Vec<u8>), Borrowed(&'a [u8]) }`. -/
inductive DerInner where
  | Owned : List Byte → DerInner
  | Borrowed : List Byte → DerInner

/-- `pub struct Der<'a>(DerInner<'a>)`: DER-encoded data, either owned or borrowed. -/
structure Der where
  inner : DerInner

/-- `Der::from_slice` and `impl From<&[u8]> for Der`: a borrowed view, no copy. -/
def Der.from_slice (der : List Byte) : Der :=
  ⟨DerInner.Borrowed der⟩

/-- `impl From<Vec<u8>> for Der<'static>`: an owned buffer. -/
def Der.from_vec (vec : List Byte) : Der :=
  ⟨DerInner.Owned vec⟩

/-- `impl AsRef<[u8]> for Der`: the logical byte content, whatever the representation. -/
def Der.as_ref (d : Der) : List Byte :=
  match d.inner with
  | DerInner.Owned vec => vec
  | DerInner.Borrowed slice => slice

/-- What `#[derive(PartialEq)]` generates for `DerInner`: the two values are
equal only when their variant tags match and then their payload bytes match. -/
def DerInner.eq : DerInner → DerInner → Bool
  | DerInner.Owned a, DerInner.Owned b => a == b
  | DerInner.Borrowed a, DerInner.Borrowed b => a == b
  | _, _ => false

/-- Derived `PartialEq` for `Der`: forwards to the single `DerInner` field. -/
def Der.eq (a b : Der) : Bool :=
  DerInner.eq a.inner b.inner

/-- `pub struct CertificateDer<'a>(Der<'a>)`. -/
structure CertificateDer where
  der : Der

/-- `impl From<&[u8]> for CertificateDer`: `Self(Der::from(slice))`. -/
def CertificateDer.from_slice (slice : List Byte) : CertificateDer :=
  ⟨Der.from_slice slice⟩

/-- `impl From<Vec<u8>> for CertificateDer`: `Self(Der::from(vec))`. -/
def CertificateDer.from_vec (vec : List Byte) : CertificateDer :=
  ⟨Der.from_vec vec⟩

/-- `impl AsRef<[u8]> for CertificateDer`. -/
def CertificateDer.as_ref (c : CertificateDer) : List Byte :=
  c.der.as_ref

/-- Derived `PartialEq` for `CertificateDer`. -/
def CertificateDer.eq (a b : CertificateDer) : Bool :=
  Der.eq a.der b.der

/-- `pub struct CertificateRevocationListDer<'a>(Der<'a>)`. -/
structure CertificateRevocationListDer where
  der : Der

/-- `impl From<&[u8]> for CertificateRevocationListDer`. -/
def CertificateRevocationListDer.from_slice (slice : List Byte) : CertificateRevocationListDer :=
  ⟨Der.from_slice slice⟩

/-- `impl From<Vec<u8>> for CertificateRevocationListDer`. -/
def CertificateRevocationListDer.from_vec (vec : List Byte) : CertificateRevocationListDer :=
  ⟨Der.from_vec vec⟩

/-- `impl AsRef<[u8]> for CertificateRevocationListDer`. -/
def CertificateRevocationListDer.as_ref (c : CertificateRevocationListDer) : List Byte :=
  c.der.as_ref

/-- Derived `PartialEq` for `CertificateRevocationListDer`. -/
def CertificateRevocationListDer.eq (a b : CertificateRevocationListDer) : Bool :=
  Der.eq a.der b.der

/-- `pub struct PrivatePkcs1KeyDer<'a>(Der<'a>)`. -/
structure PrivatePkcs1KeyDer where
  der : Der

/-- `PrivatePkcs1KeyDer::secret_pkcs1_der`: the DER bytes of the key. -/
def PrivatePkcs1KeyDer.secret_pkcs1_der (k : PrivatePkcs1KeyDer) : List Byte :=
  k.der.as_ref

/-- `impl From<&[u8]> for PrivatePkcs1KeyDer`: `Self(Der(DerInner::Borrowed(slice)))`. -/
def PrivatePkcs1KeyDer.from_slice (slice : List Byte) : PrivatePkcs1KeyDer :=
  ⟨⟨DerInner.Borrowed slice⟩⟩

/-- `impl From<Vec<u8>> for PrivatePkcs1KeyDer`: `Self(Der(DerInner::Owned(vec)))`. -/
def PrivatePkcs1KeyDer.from_vec (vec : List Byte) : PrivatePkcs1KeyDer :=
  ⟨⟨DerInner.Owned vec⟩⟩

/-- `pub struct PrivateSec1KeyDer<'a>(Der<'a>)`. -/
structure PrivateSec1KeyDer where
  der : Der

/-- `PrivateSec1KeyDer::secret_sec1_der`. -/
def PrivateSec1KeyDer.secret_sec1_der (k : PrivateSec1KeyDer) : List Byte :=
  k.der.as_ref

/-- `impl From<&[u8]> for PrivateSec1KeyDer`. -/
def PrivateSec1KeyDer.from_slice (slice : List Byte) : PrivateSec1KeyDer :=
  ⟨⟨DerInner.Borrowed slice⟩⟩

/-- `impl From<Vec<u8>> for PrivateSec1KeyDer`. -/
def PrivateSec1KeyDer.from_vec (vec : List Byte) : PrivateSec1KeyDer :=
  ⟨⟨DerInner.Owned vec⟩⟩

/-- `pub struct PrivatePkcs8KeyDer<'a>(Der<'a>)`. -/
structure PrivatePkcs8KeyDer where
  der : Der

/-- `PrivatePkcs8KeyDer::secret_pkcs8_der`. -/
def PrivatePkcs8KeyDer.secret_pkcs8_der (k : PrivatePkcs8KeyDer) : List Byte :=
  k.der.as_ref

/-- `impl From<&[u8]> for PrivatePkcs8KeyDer`. -/
def PrivatePkcs8KeyDer.from_slice (slice : List Byte) : PrivatePkcs8KeyDer :=
  ⟨⟨DerInner.Borrowed slice⟩⟩

/-- `impl From<Vec<u8>> for PrivatePkcs8KeyDer`. -/
def PrivatePkcs8KeyDer.from_vec (vec : List Byte) : PrivatePkcs8KeyDer :=
  ⟨⟨DerInner.Owned vec⟩⟩

/-- `pub enum PrivateKeyDer<'a> { Pkcs1(..), Sec1(..), Pkcs8(..) }`. -/
inductive PrivateKeyDer where
  | Pkcs1 : PrivatePkcs1KeyDer → PrivateKeyDer
  | Sec1 : PrivateSec1KeyDer → PrivateKeyDer
  | Pkcs8 : PrivatePkcs8KeyDer → PrivateKeyDer

/-- `PrivateKeyDer::secret_der`: dispatch to the held kind's accessor. -/
def PrivateKeyDer.secret_der : PrivateKeyDer → List Byte
  | PrivateKeyDer.Pkcs1 key => key.secret_pkcs1_der
  | PrivateKeyDer.Sec1 key => key.secret_sec1_der
  | PrivateKeyDer.Pkcs8 key => key.secret_pkcs8_der

/-- `impl From<PrivatePkcs1KeyDer> for PrivateKeyDer`: `Self::Pkcs1(key)`. -/
def PrivateKeyDer.from_pkcs1 (key : PrivatePkcs1KeyDer) : PrivateKeyDer :=
  PrivateKeyDer.Pkcs1 key

/-- `impl From<PrivateSec1KeyDer> for PrivateKeyDer`: `Self::Sec1(key)`. -/
def PrivateKeyDer.from_sec1 (key : PrivateSec1KeyDer) : PrivateKeyDer :=
  PrivateKeyDer.Sec1 key

/-- `impl From<PrivatePkcs8KeyDer> for PrivateKeyDer`: `Self::Pkcs8(key)`. -/
def PrivateKeyDer.from_pkcs8 (key : PrivatePkcs8KeyDer) : PrivateKeyDer :=
  PrivateKeyDer.Pkcs8 key

/-- `pub struct TrustAnchor<'a>` with its three public fields. -/
structure TrustAnchor where
  subject : Der
  subject_public_key_info : Der
  name_constraints : Option Der

/-- The standard library `PartialEq` for `Option<Der>` that the derived
`PartialEq` for `TrustAnchor` uses on the `name_constraints` field. -/
def optionDerEq : Option Der → Option Der → Bool
  | some a, some b => Der.eq a b
  | none, none => true
  | _, _ => false

/-- Derived `PartialEq` for `TrustAnchor`: field-wise. -/
def TrustAnchor.eq (a b : TrustAnchor) : Bool :=
  Der.eq a.subject b.subject &&
    Der.eq a.subject_public_key_info b.subject_public_key_info &&
    optionDerEq a.name_constraints b.name_constraints

/-- `TrustAnchor::to_owned`: each field's bytes are copied into an owned `Der`
(`self.field.as_ref().to_owned().into()`). -/
def TrustAnchor.to_owned (t : TrustAnchor) : TrustAnchor :=
  { subject := Der.from_vec t.subject.as_ref
    subject_public_key_info := Der.from_vec t.subject_public_key_info.as_ref
    name_constraints := t.name_constraints.map fun nc => Der.from_vec nc.as_ref }

/-- `core::time::Duration`: whole seconds plus a sub-second nanosecond part. -/
structure Duration where
  secs : Nat
  nanos : Nat

/-- `Duration::from_secs`. -/
def Duration.from_secs (secs : Nat) : Duration :=
  ⟨secs, 0⟩

/-- `Duration::as_secs`: whole seconds, with any sub-second part truncated away. -/
def Duration.as_secs (d : Duration) : Nat :=
  d.secs

/-- `pub struct UnixTime(u64)`: seconds since the Unix epoch. -/
structure UnixTime where
  secs : Nat

/-- `UnixTime::since_unix_epoch`: `Self(duration.as_secs())`. -/
def UnixTime.since_unix_epoch (duration : Duration) : UnixTime :=
  ⟨duration.as_secs⟩

/-- `UnixTime::as_secs`. -/
def UnixTime.as_secs (t : UnixTime) : Nat :=
  t.secs

/-- Derived `PartialEq` for `UnixTime`. -/
def UnixTime.eqb (a b : UnixTime) : Bool :=
  a.secs == b.secs

/-- What `#[derive(PartialOrd)]` generates for `UnixTime`: forward to the
single `u64` field, whose `partial_cmp` is `Some(cmp)` of the numeric order. -/
def UnixTime.cmpOpt (a b : UnixTime) : Option Ordering :=
  some (compare a.secs b.secs)

/-- `PartialOrd::lt` for `UnixTime`: `matches!(partial_cmp, Some(Less))`. -/
def UnixTime.ltb (a b : UnixTime) : Bool :=
  UnixTime.cmpOpt a b == some Ordering.lt

/-- `PartialOrd::gt` for `UnixTime`: `matches!(partial_cmp, Some(Greater))`. -/
def UnixTime.gtb (a b : UnixTime) : Bool :=
  UnixTime.cmpOpt a b == some Ordering.gt

/-- Model of `std::time::SystemTime` as used by `UnixTime::now`: a clock
reading, represented by its signed offset in nanoseconds from the Unix
epoch. `SystemTime::duration_since(UNIX_EPOCH)` succeeds exactly when the
reading is at or after the epoch and fails (with `SystemTimeError`,
modelled as `none`) otherwise. -/
structure SystemTime where
  nanos_since_epoch : Int

/-- `clock.duration_since(SystemTime::UNIX_EPOCH)`. -/
def SystemTime.duration_since_epoch (t : SystemTime) : Option Duration :=
  if 0 ≤ t.nanos_since_epoch then
    some ⟨t.nanos_since_epoch.toNat / 1000000000, t.nanos_since_epoch.toNat % 1000000000⟩
  else none

/-- `UnixTime::now()`, with the ambient `SystemTime::now()` reading passed in
explicitly; the `unwrap` on the `duration_since` result is modelled by
`Option`, so a `none` result corresponds to the panic branch. -/
def UnixTime.now (clock : SystemTime) : Option UnixTime :=
  clock.duration_since_epoch.map UnixTime.since_unix_epoch

/-- `pub struct InvalidSignature`: a detail-less unit struct. -/
structure InvalidSignature

/-- The result type of `SignatureVerificationAlgorithm::verify_signature`:
`Result<(), InvalidSignature>`. -/
abbrev VerifyResult := Except InvalidSignature Unit

/-- C4: Round trip — constructing each wrapper kind (certificate, CRL, the
three private-key kinds, and `Der` itself) from a byte sequence and reading
the bytes back via `as_ref` or the `secret_*_der` accessor yields exactly
that sequence, for both the borrowed and the owned constructor. -/
theorem c4_round_trip (b : List Byte) :
    (CertificateDer.from_slice b).as_ref = b ∧ (CertificateDer.from_vec b).as_ref = b ∧
    (CertificateRevocationListDer.from_slice b).as_ref = b ∧
    (CertificateRevocationListDer.from_vec b).as_ref = b ∧
    (PrivatePkcs1KeyDer.from_slice b).secret_pkcs1_der = b ∧
    (PrivatePkcs1KeyDer.from_vec b).secret_pkcs1_der = b ∧
    (PrivateSec1KeyDer.from_slice b).secret_sec1_der = b ∧
    (PrivateSec1KeyDer.from_vec b).secret_sec1_der = b ∧
    (PrivatePkcs8KeyDer.from_slice b).secret_pkcs8_der = b ∧
    (PrivatePkcs8KeyDer.from_vec b).secret_pkcs8_der = b ∧
    (Der.from_slice b).as_ref = b ∧ (Der.from_vec b).as_ref = b :=
  ⟨rfl, rfl, rfl, rfl, rfl, rfl, rfl, rfl, rfl, rfl, rfl, rfl⟩

/-- C5: Closed key sum dispatch — the `From` conversion from each key wrapper
yields the corresponding variant, `secret_der` on the result returns exactly
that wrapper's bytes, every `PrivateKeyDer` value is one of the three
variants, and distinct variants are never equal. -/
theorem c5_closed_key_sum :
    (∀ k : PrivatePkcs1KeyDer, PrivateKeyDer.from_pkcs1 k = PrivateKeyDer.Pkcs1 k ∧
      (PrivateKeyDer.from_pkcs1 k).secret_der = k.secret_pkcs1_der) ∧
    (∀ k : PrivateSec1KeyDer, PrivateKeyDer.from_sec1 k = PrivateKeyDer.Sec1 k ∧
      (PrivateKeyDer.from_sec1 k).secret_der = k.secret_sec1_der) ∧
    (∀ k : PrivatePkcs8KeyDer, PrivateKeyDer.from_pkcs8 k = PrivateKeyDer.Pkcs8 k ∧
      (PrivateKeyDer.from_pkcs8 k).secret_der = k.secret_pkcs8_der) ∧
    (∀ v : PrivateKeyDer, (∃ k, v = PrivateKeyDer.Pkcs1 k) ∨
      (∃ k, v = PrivateKeyDer.Sec1 k) ∨ (∃ k, v = PrivateKeyDer.Pkcs8 k)) ∧
    (∀ k k', PrivateKeyDer.Pkcs1 k ≠ PrivateKeyDer.Sec1 k') ∧
    (∀ k k', PrivateKeyDer.Pkcs1 k ≠ PrivateKeyDer.Pkcs8 k') ∧
    (∀ k k', PrivateKeyDer.Sec1 k ≠ PrivateKeyDer.Pkcs8 k') := by
  refine ⟨fun k => ⟨rfl, rfl⟩, fun k => ⟨rfl, rfl⟩, fun k => ⟨rfl, rfl⟩, ?_, ?_, ?_, ?_⟩
  · intro v
    cases v with
    | Pkcs1 k => exact Or.inl ⟨k, rfl⟩
    | Sec1 k => exact Or.inr (Or.inl ⟨k, rfl⟩)
    | Pkcs8 k => exact Or.inr (Or.inr ⟨k, rfl⟩)
  · intro k k' h
    cases h
  · intro k k' h
    cases h
  · intro k k' h
    cases h

/-- C7: Second-granularity truncation — `since_unix_epoch` of a whole-second
duration reads back the same second count (in particular at `1700000000`),
and any sub-second remainder is discarded, not rounded. -/
theorem c7_second_truncation :
    (∀ n : Nat, (UnixTime.since_unix_epoch (Duration.from_secs n)).as_secs = n) ∧
    (UnixTime.since_unix_epoch (Duration.from_secs 1700000000)).as_secs = 1700000000 ∧
    (∀ n frac : Nat, frac < 1000000000 →
      (UnixTime.since_unix_epoch ⟨n, frac⟩).as_secs = n) :=
  ⟨fun _ => rfl, rfl, fun _ _ _ => rfl⟩

/-- Witness for `c7_second_truncation` at the concrete duration of 7 seconds
plus 3 nanoseconds. -/
theorem c7_second_truncation_witness :
    (3 : Nat) < 1000000000 ∧ (UnixTime.since_unix_epoch ⟨7, 3⟩).as_secs = 7 :=
  ⟨by decide, c7_second_truncation.2.2 7 3 (by decide)⟩

/-- C9: Undifferentiated verification error — `InvalidSignature` admits
exactly one value carrying no data, so any two values of it are equal and
any two failed `verify_signature` results are indistinguishable. -/
theorem c9_invalid_signature_singleton :
    (∀ e1 e2 : InvalidSignature, e1 = e2) ∧
    (∀ e1 e2 : InvalidSignature, (Except.error e1 : VerifyResult) = Except.error e2) :=
  ⟨fun e1 e2 => by cases e1; cases e2; rfl,
   fun e1 e2 => by cases e1; cases e2; rfl⟩

/-- C6: `UnixTime::now()` never fails — whenever the system clock reads a
time at or after the Unix epoch, `duration_since(UNIX_EPOCH)` succeeds, so
the `unwrap` branch is unreachable and `now` returns a value. -/
theorem c6_now_never_fails (clock : SystemTime)
    (h : 0 ≤ clock.nanos_since_epoch) :
    ∃ t : UnixTime, UnixTime.now clock = some t := by
  refine ⟨UnixTime.since_unix_epoch ⟨clock.nanos_since_epoch.toNat / 1000000000,
    clock.nanos_since_epoch.toNat % 1000000000⟩, ?_⟩
  unfold UnixTime.now SystemTime.duration_since_epoch
  rw [if_pos h]
  rfl

/-- Witness for `c6_now_never_fails` at a clock reading of 1.7e18
nanoseconds after the epoch. -/
theorem c6_now_never_fails_witness :
    0 ≤ (SystemTime.mk 1700000000000000000).nanos_since_epoch ∧
    ∃ t : UnixTime, UnixTime.now (SystemTime.mk 1700000000000000000) = some t :=
  ⟨by decide, c6_now_never_fails (SystemTime.mk 1700000000000000000) (by decide)⟩

/-- C1: at the one-byte input `[1]`, the borrowed `Der` and the owned `Der`
holding a copy agree byte-for-byte under `as_ref`, yet the derived equality
returns `false`, because `#[derive(PartialEq)]` on `DerInner` compares the
variant tags before the bytes. -/
theorem c1_borrowed_owned_eq_divergence :
    (Der.from_slice [1]).as_ref = (Der.from_vec [1]).as_ref ∧
    Der.eq (Der.from_slice [1]) (Der.from_vec [1]) = false := by
  constructor
  · rfl
  · rfl

/-- C2: `TrustAnchor::to_owned` preserves every field byte-for-byte, but on
a trust anchor built from borrowed fields the result does not compare equal
to the original, because the derived equality distinguishes the owned from
the borrowed representation. -/
theorem c2_to_owned_divergence :
    (∀ t : TrustAnchor,
      t.to_owned.subject.as_ref = t.subject.as_ref ∧
      t.to_owned.subject_public_key_info.as_ref = t.subject_public_key_info.as_ref ∧
      t.to_owned.name_constraints.map Der.as_ref = t.name_constraints.map Der.as_ref) ∧
    TrustAnchor.eq (TrustAnchor.mk (Der.from_slice [1]) (Der.from_slice [2]) none)
      (TrustAnchor.mk (Der.from_slice [1]) (Der.from_slice [2]) none).to_owned = false := by
  constructor
  · intro t
    obtain ⟨s, p, nc⟩ := t
    refine ⟨rfl, rfl, ?_⟩
    cases nc with
    | none => rfl
    | some d => rfl
  · rfl

/-- Helper: the derived less-than test agrees with the numeric order. -/
theorem unix_ltb_iff (a b : UnixTime) : UnixTime.ltb a b = true ↔ a.secs < b.secs := by
  unfold UnixTime.ltb UnixTime.cmpOpt
  cases hc : compare a.secs b.secs with
  | lt => exact iff_of_true (by decide) (Nat.compare_eq_lt.mp hc)
  | eq => exact iff_of_false (by decide) (by have := Nat.compare_eq_eq.mp hc; omega)
  | gt => exact iff_of_false (by decide) (by have := Nat.compare_eq_gt.mp hc; omega)

/-- Helper: the derived greater-than test agrees with the numeric order. -/
theorem unix_gtb_iff (a b : UnixTime) : UnixTime.gtb a b = true ↔ b.secs < a.secs := by
  unfold UnixTime.gtb UnixTime.cmpOpt
  cases hc : compare a.secs b.secs with
  | lt => exact iff_of_false (by decide) (by have := Nat.compare_eq_lt.mp hc; omega)
  | eq => exact iff_of_false (by decide) (by have := Nat.compare_eq_eq.mp hc; omega)
  | gt => exact iff_of_true (by decide) (Nat.compare_eq_gt.mp hc)

/-- Helper: the derived equality test agrees with numeric equality. -/
theorem unix_eqb_iff (a b : UnixTime) : UnixTime.eqb a b = true ↔ a.secs = b.secs := by
  simp [UnixTime.eqb]

/-- C8: Total numeric ordering — for any two `UnixTime` values the derived
comparison always yields a result, that result is the numeric comparison of
the second counts, and exactly one of less-than, equal, greater-than holds. -/
theorem c8_total_numeric_order (a b : UnixTime) :
    UnixTime.cmpOpt a b = some (compare a.as_secs b.as_secs) ∧
    (UnixTime.ltb a b = true ↔ a.as_secs < b.as_secs) ∧
    (UnixTime.eqb a b = true ↔ a.as_secs = b.as_secs) ∧
    (UnixTime.gtb a b = true ↔ b.as_secs < a.as_secs) ∧
    ((UnixTime.ltb a b = true ∧ UnixTime.eqb a b = false ∧ UnixTime.gtb a b = false) ∨
     (UnixTime.ltb a b = false ∧ UnixTime.eqb a b = true ∧ UnixTime.gtb a b = false) ∨
     (UnixTime.ltb a b = false ∧ UnixTime.eqb a b = false ∧ UnixTime.gtb a b = true)) := by
  refine ⟨rfl, unix_ltb_iff a b, unix_eqb_iff a b, unix_gtb_iff a b, ?_⟩
  rcases Nat.lt_trichotomy a.secs b.secs with h | h | h
  · refine Or.inl ⟨(unix_ltb_iff a b).mpr h, ?_, ?_⟩
    · rw [Bool.eq_false_iff]
      intro hx
      have := (unix_eqb_iff a b).mp hx
      omega
    · rw [Bool.eq_false_iff]
      intro hx
      have := (unix_gtb_iff a b).mp hx
      omega
  · refine Or.inr (Or.inl ⟨?_, (unix_eqb_iff a b).mpr h, ?_⟩)
    · rw [Bool.eq_false_iff]
      intro hx
      have := (unix_ltb_iff a b).mp hx
      omega
    · rw [Bool.eq_false_iff]
      intro hx
      have := (unix_gtb_iff a b).mp hx
      omega
  · refine Or.inr (Or.inr ⟨?_, ?_, (unix_gtb_iff a b).mpr h⟩)
    · rw [Bool.eq_false_iff]
      intro hx
      have := (unix_ltb_iff a b).mp hx
      omega
    · rw [Bool.eq_false_iff]
      intro hx
      have := (unix_eqb_iff a b).mp hx
      omega

/-! Debug formatting, modelled as the exact strings the `fmt::Debug`
implementations produce (non-alternate mode). -/

/-- The decimal digit characters that `Debug` for `u8` prints for one byte. -/
def reprChars (b : Byte) : List Char :=
  (Nat.repr b.val).data

/-- The characters a `Formatter` debug list places between its brackets:
the entries in decimal, separated by `", "`. -/
def renderBytesChars : List Byte → List Char
  | [] => []
  | [b] => reprChars b
  | b :: rest => reprChars b ++ ',' :: ' ' :: renderBytesChars rest

/-- `impl fmt::Debug for Der`:
`f.debug_tuple("Der").field(&self.as_ref()).finish()` prints
`Der([b0, b1, ...])` with the byte content in decimal. -/
def Der.fmtDebug (d : Der) : String :=
  "Der([" ++ String.mk (renderBytesChars d.as_ref) ++ "])"

/-- Derived `Debug` for the tuple struct `CertificateDer`. -/
def CertificateDer.fmtDebug (c : CertificateDer) : String :=
  "CertificateDer(" ++ c.der.fmtDebug ++ ")"

/-- Derived `Debug` for the tuple struct `CertificateRevocationListDer`. -/
def CertificateRevocationListDer.fmtDebug (c : CertificateRevocationListDer) : String :=
  "CertificateRevocationListDer(" ++ c.der.fmtDebug ++ ")"

/-- Derived `Debug` for `TrustAnchor`: every field, including the optional
name constraints, is printed with its own `Debug`. -/
def TrustAnchor.fmtDebug (t : TrustAnchor) : String :=
  "TrustAnchor \x7b subject: " ++ t.subject.fmtDebug ++
    ", subject_public_key_info: " ++ t.subject_public_key_info.fmtDebug ++
    ", name_constraints: " ++
    (match t.name_constraints with
      | some nc => "Some(" ++ nc.fmtDebug ++ ")"
      | none => "None") ++ " \x7d"

/-- `impl fmt::Debug for PrivatePkcs1KeyDer`: the secret bytes are ignored
and a fixed placeholder is printed. -/
def PrivatePkcs1KeyDer.fmtDebug (_ : PrivatePkcs1KeyDer) : String :=
  "PrivatePkcs1KeyDer(\"[secret key elided]\")"

/-- `impl fmt::Debug for PrivateSec1KeyDer`: fixed placeholder; note the
source prints the tuple name `PrivatePkcs1KeyDer` here as well. -/
def PrivateSec1KeyDer.fmtDebug (_ : PrivateSec1KeyDer) : String :=
  "PrivatePkcs1KeyDer(\"[secret key elided]\")"

/-- `impl fmt::Debug for PrivatePkcs8KeyDer`: fixed placeholder; note the
source prints the tuple name `PrivatePkcs1KeyDer` here as well. -/
def PrivatePkcs8KeyDer.fmtDebug (_ : PrivatePkcs8KeyDer) : String :=
  "PrivatePkcs1KeyDer(\"[secret key elided]\")"

/-- Derived `Debug` for the enum `PrivateKeyDer`: the variant name around
the inner key's own (redacting) `Debug`. -/
def PrivateKeyDer.fmtDebug : PrivateKeyDer → String
  | PrivateKeyDer.Pkcs1 key => "Pkcs1(" ++ key.fmtDebug ++ ")"
  | PrivateKeyDer.Sec1 key => "Sec1(" ++ key.fmtDebug ++ ")"
  | PrivateKeyDer.Pkcs8 key => "Pkcs8(" ++ key.fmtDebug ++ ")"

/-- C3: Secret redaction — each private-key wrapper's debug output is a
fixed placeholder string that does not depend on the wrapped key bytes, and
the debug output of the `PrivateKeyDer` sum type is always one of three
fixed placeholder strings, again independent of the key material. -/
theorem c3_secret_redaction :
    (∀ k : PrivatePkcs1KeyDer, k.fmtDebug = "PrivatePkcs1KeyDer(\"[secret key elided]\")") ∧
    (∀ k : PrivateSec1KeyDer, k.fmtDebug = "PrivatePkcs1KeyDer(\"[secret key elided]\")") ∧
    (∀ k : PrivatePkcs8KeyDer, k.fmtDebug = "PrivatePkcs1KeyDer(\"[secret key elided]\")") ∧
    (∀ v : PrivateKeyDer,
      v.fmtDebug = "Pkcs1(PrivatePkcs1KeyDer(\"[secret key elided]\"))" ∨
      v.fmtDebug = "Sec1(PrivatePkcs1KeyDer(\"[secret key elided]\"))" ∨
      v.fmtDebug = "Pkcs8(PrivatePkcs1KeyDer(\"[secret key elided]\"))") := by
  refine ⟨fun k => rfl, fun k => rfl, fun k => rfl, fun v => ?_⟩
  cases v with
  | Pkcs1 key => exact Or.inl rfl
  | Sec1 key => exact Or.inr (Or.inl rfl)
  | Pkcs8 key => exact Or.inr (Or.inr rfl)

/-- Decimal re-reading of a digit string (most significant digit first). -/
def digitsVal (ds : List Char) : Nat :=
  ds.foldl (fun n c => 10 * n + (c.toNat - 48)) 0

/-- Every character a byte prints as is a decimal digit. -/
theorem reprChars_all_digit : ∀ b : Byte, (reprChars b).all Char.isDigit = true := by
  decide

/-- A byte always prints at least one character. -/
theorem reprChars_ne_nil : ∀ b : Byte, reprChars b ≠ [] := by
  decide

/-- Reading the printed decimal digits back recovers the byte. -/
theorem digitsVal_reprChars : ∀ b : Byte, digitsVal (reprChars b) = b.val := by
  decide

/-- The decimal printing of a byte is injective. -/
theorem reprChars_inj (a b : Byte) (h : reprChars a = reprChars b) : a = b := by
  have ha := digitsVal_reprChars a
  have hb := digitsVal_reprChars b
  rw [h, hb] at ha
  exact Fin.ext ha.symm

/-- Splitting a list of characters at a stop character is unambiguous when
everything before the stop satisfies a predicate the stop fails. -/
theorem split_at_stop (f : Char → Bool) (c c' : Char) (hc : f c = false) (hc' : f c' = false) :
    ∀ (x1 x2 r1 r2 : List Char), x1.all f = true → x2.all f = true →
      x1 ++ c :: r1 = x2 ++ c' :: r2 → x1 = x2 ∧ c = c' ∧ r1 = r2
  | [], [], r1, r2, _, _, h => by
      simp only [List.nil_append, List.cons.injEq] at h
      exact ⟨rfl, h.1, h.2⟩
  | [], d :: x2, r1, r2, _, h2, h => by
      simp only [List.nil_append, List.cons_append, List.cons.injEq] at h
      simp only [List.all_cons, Bool.and_eq_true] at h2
      rw [← h.1] at h2
      exact absurd h2.1 (by simp [hc])
  | a :: x1, [], r1, r2, h1, _, h => by
      simp only [List.cons_append, List.nil_append, List.cons.injEq] at h
      simp only [List.all_cons, Bool.and_eq_true] at h1
      rw [h.1] at h1
      exact absurd h1.1 (by simp [hc'])
  | a :: x1, d :: x2, r1, r2, h1, h2, h => by
      simp only [List.cons_append, List.cons.injEq] at h
      simp only [List.all_cons, Bool.and_eq_true] at h1 h2
      obtain ⟨rfl, h⟩ := h
      obtain ⟨hx, hcc, hr⟩ := split_at_stop f c c' hc hc' x1 x2 r1 r2 h1.2 h2.2 h
      exact ⟨by rw [hx], hcc, hr⟩

/-- The characters allowed inside a rendered byte list: digits, the comma
and the space of the separator. -/
def interiorChar (c : Char) : Bool :=
  c.isDigit || c == ',' || c == ' '

/-- Every character of a rendered byte list is an interior character. -/
theorem renderBytesChars_all_interior :
    ∀ bs : List Byte, (renderBytesChars bs).all interiorChar = true
  | [] => rfl
  | [b] => by
      show (reprChars b).all interiorChar = true
      have h := reprChars_all_digit b
      rw [List.all_eq_true] at h ⊢
      intro c hcmem
      have := h c hcmem
      simp only [interiorChar, Bool.or_eq_true]
      exact Or.inl (Or.inl (by simpa using this))
  | b :: b' :: rest => by
      show (reprChars b ++ ',' :: ' ' :: renderBytesChars (b' :: rest)).all interiorChar = true
      have h := reprChars_all_digit b
      have ih := renderBytesChars_all_interior (b' :: rest)
      rw [List.all_append, List.all_cons, List.all_cons, ih]
      rw [List.all_eq_true] at h
      simp only [Bool.and_true, Bool.and_eq_true]
      refine ⟨?_, by decide, by decide⟩
      rw [List.all_eq_true]
      intro c hcmem
      have := h c hcmem
      simp only [interiorChar, Bool.or_eq_true]
      exact Or.inl (Or.inl (by simpa using this))

/-- The rendering of a byte list between the brackets is injective. -/
theorem renderBytesChars_inj :
    ∀ b1 b2 : List Byte, renderBytesChars b1 = renderBytesChars b2 → b1 = b2
  | [], [], _ => rfl
  | [], [b], h => absurd h.symm (reprChars_ne_nil b)
  | [], b :: b' :: r, h => by
      have h' : reprChars b ++ ',' :: ' ' :: renderBytesChars (b' :: r) = [] := h.symm
      rw [List.append_eq_nil] at h'
      exact absurd h'.2 (by simp)
  | [b], [], h => absurd h (reprChars_ne_nil b)
  | [b1], [b2], h => by rw [reprChars_inj b1 b2 h]
  | [b1], b2 :: b2' :: r2, h => by
      have h' : reprChars b1 = reprChars b2 ++ ',' :: ' ' :: renderBytesChars (b2' :: r2) := h
      have hmem : (',' : Char) ∈ reprChars b1 := by
        rw [h']
        exact List.mem_append_right _ (List.mem_cons_self _ _)
      have hd := reprChars_all_digit b1
      rw [List.all_eq_true] at hd
      exact absurd (hd ',' hmem) (by decide)
  | b1 :: b1' :: r1, [], h => by
      have h' : reprChars b1 ++ ',' :: ' ' :: renderBytesChars (b1' :: r1) = [] := h
      rw [List.append_eq_nil] at h'
      exact absurd h'.2 (by simp)
  | b1 :: b1' :: r1, [b2], h => by
      have h' : reprChars b2 = reprChars b1 ++ ',' :: ' ' :: renderBytesChars (b1' :: r1) := h.symm
      have hmem : (',' : Char) ∈ reprChars b2 := by
        rw [h']
        exact List.mem_append_right _ (List.mem_cons_self _ _)
      have hd := reprChars_all_digit b2
      rw [List.all_eq_true] at hd
      exact absurd (hd ',' hmem) (by decide)
  | b1 :: b1' :: r1, b2 :: b2' :: r2, h => by
      have h' : reprChars b1 ++ ',' :: (' ' :: renderBytesChars (b1' :: r1)) =
          reprChars b2 ++ ',' :: (' ' :: renderBytesChars (b2' :: r2)) := h
      obtain ⟨hx, -, hr⟩ := split_at_stop Char.isDigit ',' ',' (by decide) (by decide)
        (reprChars b1) (reprChars b2) (' ' :: renderBytesChars (b1' :: r1))
        (' ' :: renderBytesChars (b2' :: r2))
        (reprChars_all_digit b1) (reprChars_all_digit b2) h'
      have hb := reprChars_inj b1 b2 hx
      have hrec : renderBytesChars (b1' :: r1) = renderBytesChars (b2' :: r2) := by
        injection hr
      have htail := renderBytesChars_inj (b1' :: r1) (b2' :: r2) hrec
      rw [hb, htail]

/-- `String.append` concatenates the underlying character lists. -/
theorem string_data_append : ∀ s t : String, (s ++ t).data = s.data ++ t.data
  | ⟨_⟩, ⟨_⟩ => rfl

/-- The exact character sequence of `Der`'s debug output. -/
theorem der_fmtDebug_data (d : Der) :
    d.fmtDebug.data =
      'D' :: 'e' :: 'r' :: '(' :: '[' :: (renderBytesChars d.as_ref ++ ']' :: ')' :: []) :=
  rfl

/-- The debug output of a `Der` followed by arbitrary trailing text
determines both the byte content and the trailing text. -/
theorem der_fmtDebug_data_inj (d d' : Der) (r r' : List Char)
    (h : d.fmtDebug.data ++ r = d'.fmtDebug.data ++ r') :
    d.as_ref = d'.as_ref ∧ r = r' := by
  rw [der_fmtDebug_data, der_fmtDebug_data] at h
  simp only [List.cons_append, List.nil_append, List.append_assoc, List.cons.injEq,
    true_and] at h
  obtain ⟨hx, -, hr⟩ := split_at_stop interiorChar ']' ']' (by decide) (by decide)
    (renderBytesChars d.as_ref) (renderBytesChars d'.as_ref) (')' :: r) (')' :: r')
    (renderBytesChars_all_interior d.as_ref) (renderBytesChars_all_interior d'.as_ref) h
  refine ⟨renderBytesChars_inj _ _ hx, ?_⟩
  injection hr

/-- C10: Non-secret wrappers are not redacted — the debug output of `Der`
spells out the full byte content between its brackets, and for `Der`,
`CertificateDer`, `CertificateRevocationListDer` and `TrustAnchor` the debug
string determines the underlying bytes exactly (so debug-printing exposes
the DER bytes verbatim, unlike the private-key wrappers). -/
theorem c10_debug_exposes_bytes :
    (∀ d : Der, d.fmtDebug.data =
      'D' :: 'e' :: 'r' :: '(' :: '[' :: (renderBytesChars d.as_ref ++ ']' :: ')' :: [])) ∧
    (∀ d d' : Der, d.fmtDebug = d'.fmtDebug → d.as_ref = d'.as_ref) ∧
    (∀ c c' : CertificateDer, c.fmtDebug = c'.fmtDebug → c.as_ref = c'.as_ref) ∧
    (∀ c c' : CertificateRevocationListDer, c.fmtDebug = c'.fmtDebug → c.as_ref = c'.as_ref) ∧
    (∀ t t' : TrustAnchor, t.fmtDebug = t'.fmtDebug →
      t.subject.as_ref = t'.subject.as_ref ∧
      t.subject_public_key_info.as_ref = t'.subject_public_key_info.as_ref ∧
      t.name_constraints.map Der.as_ref = t'.name_constraints.map Der.as_ref) := by
  refine ⟨der_fmtDebug_data, ?_, ?_, ?_, ?_⟩
  · intro d d' h
    have h2 := congrArg String.data h
    have h3 : d.fmtDebug.data ++ [] = d'.fmtDebug.data ++ [] := by
      rw [List.append_nil, List.append_nil]
      exact h2
    exact (der_fmtDebug_data_inj d d' [] [] h3).1
  · intro c c' h
    have h2 := congrArg String.data h
    simp only [CertificateDer.fmtDebug, string_data_append, List.append_assoc] at h2
    exact (der_fmtDebug_data_inj c.der c'.der _ _ (List.append_cancel_left h2)).1
  · intro c c' h
    have h2 := congrArg String.data h
    simp only [CertificateRevocationListDer.fmtDebug, string_data_append,
      List.append_assoc] at h2
    exact (der_fmtDebug_data_inj c.der c'.der _ _ (List.append_cancel_left h2)).1
  · intro t t' h
    obtain ⟨s, p, nc⟩ := t
    obtain ⟨s', p', nc'⟩ := t'
    have h2 := congrArg String.data h
    cases nc with
    | none =>
      cases nc' with
      | none =>
        simp only [TrustAnchor.fmtDebug, string_data_append, List.append_assoc] at h2
        have h3 := List.append_cancel_left h2
        obtain ⟨hsub, h4⟩ := der_fmtDebug_data_inj s s' _ _ h3
        have h5 := List.append_cancel_left h4
        obtain ⟨hspki, -⟩ := der_fmtDebug_data_inj p p' _ _ h5
        exact ⟨hsub, hspki, rfl⟩
      | some e' =>
        simp only [TrustAnchor.fmtDebug, string_data_append, List.append_assoc] at h2
        have h3 := List.append_cancel_left h2
        obtain ⟨-, h4⟩ := der_fmtDebug_data_inj s s' _ _ h3
        have h5 := List.append_cancel_left h4
        obtain ⟨-, h6⟩ := der_fmtDebug_data_inj p p' _ _ h5
        have h7 := List.append_cancel_left h6
        have hcon : (some 'N' : Option Char) = some 'S' := congrArg List.head? h7
        exact absurd hcon (by decide)
    | some e =>
      cases nc' with
      | none =>
        simp only [TrustAnchor.fmtDebug, string_data_append, List.append_assoc] at h2
        have h3 := List.append_cancel_left h2
        obtain ⟨-, h4⟩ := der_fmtDebug_data_inj s s' _ _ h3
        have h5 := List.append_cancel_left h4
        obtain ⟨-, h6⟩ := der_fmtDebug_data_inj p p' _ _ h5
        have h7 := List.append_cancel_left h6
        have hcon : (some 'S' : Option Char) = some 'N' := congrArg List.head? h7
        exact absurd hcon (by decide)
      | some e' =>
        simp only [TrustAnchor.fmtDebug, string_data_append, List.append_assoc] at h2
        have h3 := List.append_cancel_left h2
        obtain ⟨hsub, h4⟩ := der_fmtDebug_data_inj s s' _ _ h3
        have h5 := List.append_cancel_left h4
        obtain ⟨hspki, h6⟩ := der_fmtDebug_data_inj p p' _ _ h5
        have h7 := List.append_cancel_left h6
        have h8 := List.append_cancel_left h7
        obtain ⟨hnc, -⟩ := der_fmtDebug_data_inj e e' _ _ h8
        exact ⟨hsub, hspki, congrArg some hnc⟩

/-- Witness for `c10_debug_exposes_bytes`: the borrowed and owned `Der`
over the byte `[1]` have the same debug string, and the injectivity
component recovers that their byte contents agree. -/
theorem c10_debug_exposes_bytes_witness :
    (Der.from_slice [1]).fmtDebug = (Der.from_vec [1]).fmtDebug ∧
    (Der.from_slice [1]).as_ref = (Der.from_vec [1]).as_ref :=
  ⟨rfl, c10_debug_exposes_bytes.2.1 (Der.from_slice [1]) (Der.from_vec [1]) rfl⟩
